import Mathlib

/- Verification of the training-and-serving pipeline of the
Flask-React ML API Generator.  The frontend TypeScript under frontend/ is
embedded directly; the FastAPI backend operations that the frontend calls
(training engine, model registry, prediction service, usage ledger) are
modelled from the specification where the doc comment says so.  Machine
floating-point numbers are embedded as rationals (exact arithmetic);
request counts are naturals. -/

/-- Task type, from the frontend union type in api-client.ts,
field task of TrainingRequest. -/
inductive MLTask where
  | classification
  | regression
  deriving DecidableEq

/-- Per-API metrics aggregate, from the APIMetrics interface in
frontend/lib/api-client.ts. -/
structure APIMetrics where
  total_requests : Nat
  successful_requests : Nat
  failed_requests : Nat
  total_cpu_time : ℚ
  total_memory_used : ℚ
  average_response_time : ℚ
  deriving DecidableEq

/-- One logged invocation, from the body sent by logAPIUsage in
frontend/lib/api-client.ts and the UsageEvent entity of the data model:
success flag, response time, CPU time, memory delta. -/
structure UsageEvent where
  success : Bool
  response_time_ms : ℚ
  cpu_time_ms : ℚ
  memory_used_mb : ℚ
  deriving DecidableEq

/-- The zero aggregate a freshly created GeneratedAPI starts from. -/
def initialMetrics : APIMetrics :=
  { total_requests := 0
    successful_requests := 0
    failed_requests := 0
    total_cpu_time := 0
    total_memory_used := 0
    average_response_time := 0 }

/-- Modelled from the spec: the API Usage Ledger operation
record(api_id, success, response_time_ms, cpu_time_ms, memory_mb, error)
of the backend (routers/api_consumer.py, not under src/; the frontend
caller is logAPIUsage in api-client.ts).  It increments the request
counters, accumulates CPU and memory, and updates the running mean by the
incremental rule new_avg = old_avg + (sample - old_avg) / new_count. -/
def record (m : APIMetrics) (e : UsageEvent) : APIMetrics :=
  let n := m.total_requests + 1
  { total_requests := n
    successful_requests := m.successful_requests + (if e.success then 1 else 0)
    failed_requests := m.failed_requests + (if e.success then 0 else 1)
    total_cpu_time := m.total_cpu_time + e.cpu_time_ms
    total_memory_used := m.total_memory_used + e.memory_used_mb
    average_response_time :=
      m.average_response_time + (e.response_time_ms - m.average_response_time) / (n : ℚ) }

/-- A sequence of record calls applied in order. -/
def recordAll (m : APIMetrics) (es : List UsageEvent) : APIMetrics :=
  es.foldl record m

theorem recordAll_nil (m : APIMetrics) : recordAll m [] = m := rfl

theorem recordAll_cons (m : APIMetrics) (e : UsageEvent) (es : List UsageEvent) :
    recordAll m (e :: es) = recordAll (record m e) es := rfl

theorem recordAll_total (m : APIMetrics) (es : List UsageEvent) :
    (recordAll m es).total_requests = m.total_requests + es.length := by
  induction es generalizing m with
  | nil => simp [recordAll]
  | cons e t ih =>
      rw [recordAll_cons, ih]
      simp [record]
      omega

theorem recordAll_successful (m : APIMetrics) (es : List UsageEvent) :
    (recordAll m es).successful_requests =
      m.successful_requests + es.countP (fun e => e.success) := by
  induction es generalizing m with
  | nil => simp [recordAll]
  | cons e t ih =>
      rw [recordAll_cons, ih]
      by_cases h : e.success <;> simp [record, h, List.countP_cons] <;> omega

theorem recordAll_failed (m : APIMetrics) (es : List UsageEvent) :
    (recordAll m es).failed_requests =
      m.failed_requests + es.countP (fun e => !e.success) := by
  induction es generalizing m with
  | nil => simp [recordAll]
  | cons e t ih =>
      rw [recordAll_cons, ih]
      by_cases h : e.success <;> simp [record, h, List.countP_cons] <;> omega

theorem recordAll_cpu (m : APIMetrics) (es : List UsageEvent) :
    (recordAll m es).total_cpu_time =
      m.total_cpu_time + (es.map (fun e => e.cpu_time_ms)).sum := by
  induction es generalizing m with
  | nil => simp [recordAll]
  | cons e t ih =>
      rw [recordAll_cons, ih]
      simp [record]
      ring

theorem recordAll_memory (m : APIMetrics) (es : List UsageEvent) :
    (recordAll m es).total_memory_used =
      m.total_memory_used + (es.map (fun e => e.memory_used_mb)).sum := by
  induction es generalizing m with
  | nil => simp [recordAll]
  | cons e t ih =>
      rw [recordAll_cons, ih]
      simp [record]
      ring

/-- The running mean times the running count equals the running total of
the response-time samples: the invariant behind the incremental rule. -/
theorem recordAll_avg_mul (m : APIMetrics) (es : List UsageEvent) :
    (recordAll m es).average_response_time * ((m.total_requests + es.length : Nat) : ℚ) =
      m.average_response_time * (m.total_requests : ℚ) +
        (es.map (fun e => e.response_time_ms)).sum := by
  induction es generalizing m with
  | nil => simp [recordAll]
  | cons e t ih =>
      rw [recordAll_cons]
      have h := ih (record m e)
      have hcount : (record m e).total_requests = m.total_requests + 1 := rfl
      rw [hcount] at h
      have hn : ((m.total_requests + 1 : Nat) : ℚ) ≠ 0 := by
        exact_mod_cast Nat.succ_ne_zero m.total_requests
      have havg : (record m e).average_response_time * ((m.total_requests + 1 : Nat) : ℚ) =
          m.average_response_time * (m.total_requests : ℚ) + e.response_time_ms := by
        show (m.average_response_time +
            (e.response_time_ms - m.average_response_time) / ((m.total_requests + 1 : Nat) : ℚ)) *
              ((m.total_requests + 1 : Nat) : ℚ) = _
        field_simp
        push_cast
        ring
      have hlen : (m.total_requests + (e :: t).length : Nat) = (m.total_requests + 1) + t.length := by
        simp
        omega
      rw [hlen, h, havg]
      simp
      ring

theorem metricsExt (a b : APIMetrics)
    (h1 : a.total_requests = b.total_requests)
    (h2 : a.successful_requests = b.successful_requests)
    (h3 : a.failed_requests = b.failed_requests)
    (h4 : a.total_cpu_time = b.total_cpu_time)
    (h5 : a.total_memory_used = b.total_memory_used)
    (h6 : a.average_response_time = b.average_response_time) : a = b := by
  cases a
  cases b
  simp_all

/-- The running mean after a sequence of record calls starting from the
zero aggregate equals the exact arithmetic mean of the samples (with the
empty-sequence case reading 0 / 0 = 0 in the rationals). -/
theorem recordAll_avg_from_initial (es : List UsageEvent) :
    (recordAll initialMetrics es).average_response_time =
      (es.map (fun e => e.response_time_ms)).sum / (es.length : ℚ) := by
  rcases Nat.eq_zero_or_pos es.length with hz | hp
  · have : es = [] := List.length_eq_zero.mp hz
    subst this
    simp [recordAll, initialMetrics]
  · have h := recordAll_avg_mul initialMetrics es
    have h0 : initialMetrics.total_requests = 0 := rfl
    rw [h0] at h
    simp only [Nat.zero_add] at h
    have hne : ((es.length : Nat) : ℚ) ≠ 0 := by
      have : es.length ≠ 0 := by omega
      exact_mod_cast this
    rw [eq_div_iff hne]
    rw [h]
    simp [initialMetrics]

/-- Two interleavings of the same multiset of record calls produce the
same final aggregate. -/
theorem recordAll_perm (m : APIMetrics) (es1 es2 : List UsageEvent)
    (h : es1.Perm es2) : recordAll m es1 = recordAll m es2 := by
  have hlen := h.length_eq
  have hsum : (es1.map (fun e => e.response_time_ms)).sum =
      (es2.map (fun e => e.response_time_ms)).sum := (h.map _).sum_eq
  rcases Nat.eq_zero_or_pos es1.length with hz | hp
  · have h1 : es1 = [] := List.length_eq_zero.mp hz
    have h2 : es2 = [] := List.length_eq_zero.mp (by omega)
    rw [h1, h2]
  · apply metricsExt
    · rw [recordAll_total, recordAll_total, hlen]
    · rw [recordAll_successful, recordAll_successful, h.countP_eq]
    · rw [recordAll_failed, recordAll_failed, h.countP_eq]
    · rw [recordAll_cpu, recordAll_cpu, (h.map _).sum_eq]
    · rw [recordAll_memory, recordAll_memory, (h.map _).sum_eq]
    · have ha := recordAll_avg_mul m es1
      have hb := recordAll_avg_mul m es2
      rw [← hlen, ← hsum] at hb
      have hne : ((m.total_requests + es1.length : Nat) : ℚ) ≠ 0 := by
        have : m.total_requests + es1.length ≠ 0 := by omega
        exact_mod_cast this
      exact mul_right_cancel₀ hne (ha.trans hb.symm)

/-- Claim C3: each record call updates the running average response time by
the incremental rule new_avg = old_avg + (sample - old_avg) / new_count, so
after any sequence of n record calls against a GeneratedAPI the aggregate
holds total_requests = n and average_response_time equal to the exact
arithmetic mean of the n recorded response-time samples. -/
theorem usage_ledger_running_mean (es : List UsageEvent) :
    (recordAll initialMetrics es).total_requests = es.length ∧
    (recordAll initialMetrics es).average_response_time =
      (es.map (fun e => e.response_time_ms)).sum / (es.length : ℚ) := by
  constructor
  · rw [recordAll_total]
    simp [initialMetrics]
  · exact recordAll_avg_from_initial es

/-- Claim C9: concurrent record calls against the same api_id, modelled as
an arbitrary interleaving (permutation) of the individual atomic
read-modify-write record steps mandated by the spec, behave as if executed
one after another: the final aggregate is independent of the interleaving,
total_requests grows by exactly the number of calls (no lost updates), and
from the zero aggregate the average equals the true mean of all samples. -/
theorem usage_ledger_linearizable (m : APIMetrics) (es inter : List UsageEvent)
    (h : inter.Perm es) :
    recordAll m inter = recordAll m es ∧
    (recordAll m inter).total_requests = m.total_requests + es.length ∧
    (recordAll initialMetrics inter).average_response_time =
      (es.map (fun e => e.response_time_ms)).sum / (es.length : ℚ) := by
  refine ⟨recordAll_perm m inter es h, ?_, ?_⟩
  · rw [recordAll_total, h.length_eq]
  · rw [recordAll_perm initialMetrics inter es h]
    exact recordAll_avg_from_initial es

/-- Witness for claim C9 at a concrete interleaving: two usage events with
response times 10 ms and 20 ms recorded in either order give the same
aggregate, two total requests, and average 15 ms. -/
theorem usage_ledger_linearizable_witness :
    recordAll initialMetrics
        [⟨true, 20, 0, 0⟩, ⟨true, 10, 0, 0⟩] =
      recordAll initialMetrics
        [⟨true, 10, 0, 0⟩, ⟨true, 20, 0, 0⟩] ∧
    (recordAll initialMetrics
        [⟨true, 20, 0, 0⟩, ⟨true, 10, 0, 0⟩]).total_requests = 0 + 2 ∧
    (recordAll initialMetrics
        [⟨true, 20, 0, 0⟩, ⟨true, 10, 0, 0⟩]).average_response_time =
      (([⟨true, 10, 0, 0⟩, ⟨true, 20, 0, 0⟩] :
          List UsageEvent).map (fun e => e.response_time_ms)).sum / 2 :=
  usage_ledger_linearizable initialMetrics
    [⟨true, 10, 0, 0⟩, ⟨true, 20, 0, 0⟩]
    [⟨true, 20, 0, 0⟩, ⟨true, 10, 0, 0⟩] (by decide)

/-- A structured input row keyed by feature-column name, from the request
body of predictBatchWithAPI in api-client.ts (data : Record(string, number)
per row). -/
abbrev InputRecord := List (String × ℚ)

/-- Modelled from the spec: a registered Artifact (serialized fitted
estimator plus its preprocessing pipeline, owned by the backend Model
Registry, not under src/).  The feature columns the pipeline was fit on
are explicit; the stored preprocessing transform composed with the fitted
estimator is abstracted as one pure function from the ordered feature
vector to the prediction. -/
structure Artifact where
  feature_columns : List String
  estimator : List ℚ → ℚ

/-- Batch cap for predictions: max rows per batch prediction, 1000, from
the Limits and Constraints table of the repository README. -/
def maxBatchSize : Nat := 1000

/-- The keys a record supplies. -/
def recordKeys (r : InputRecord) : List String := r.map Prod.fst

/-- A record matches the artifact schema when it supplies exactly the
feature columns the pipeline was fit on: no required key missing and no
extra key present. -/
def schemaMatches (a : Artifact) (r : InputRecord) : Bool :=
  a.feature_columns.all (fun c => decide (c ∈ recordKeys r)) &&
    (recordKeys r).all (fun k => decide (k ∈ a.feature_columns))

/-- The ordered feature vector a record yields, in the order of the
feature columns the artifact was fit on. -/
def recordVector (a : Artifact) (r : InputRecord) : List ℚ :=
  a.feature_columns.map (fun c => ((r.lookup c).getD 0))

/-- Prediction-time failure modes from the spec error taxonomy. -/
inductive PredictError where
  | SchemaMismatch
  | BatchTooLarge
  | InvalidFeatureValue
  | ArtifactNotFound
  deriving DecidableEq

/-- Modelled from the spec: the backend Prediction Service operation
predict(artifact, records) (routers/predict.py and api_consumer.py, not
under src/; the frontend callers are predict and predictBatchWithAPI in
api-client.ts).  It rejects batches over the cap with BatchTooLarge,
rejects any record whose key set differs from the fitted feature columns
with SchemaMismatch, and otherwise returns one prediction per input
record, in input order, through the stored pipeline and estimator. -/
def predict (a : Artifact) (records : List InputRecord) :
    Except PredictError (List ℚ) :=
  if records.length > maxBatchSize then .error .BatchTooLarge
  else if records.all (fun r => schemaMatches a r) then
    .ok (records.map (fun r => a.estimator (recordVector a r)))
  else .error .SchemaMismatch

/-- Claim C4: predict is deterministic and order-preserving: the outcome is
a function of the artifact and the records alone (two runs on identical
inputs agree), and a successful call returns exactly the map of the fitted
pipeline over the input records, hence one prediction per input record, in
the input order. -/
theorem predict_deterministic (a : Artifact) (rs : List InputRecord) :
    (∀ o1 o2 : Except PredictError (List ℚ),
        predict a rs = o1 → predict a rs = o2 → o1 = o2) ∧
    (∀ ps, predict a rs = .ok ps →
        ps = rs.map (fun r => a.estimator (recordVector a r)) ∧
          ps.length = rs.length) := by
  constructor
  · intro o1 o2 h1 h2
    rw [← h1, ← h2]
  · intro ps hps
    unfold predict at hps
    split at hps
    · exact absurd hps (by simp)
    · split at hps
      · simp only [Except.ok.injEq] at hps
        subst hps
        exact ⟨rfl, by simp⟩
      · exact absurd hps (by simp)

/-- Witness for claim C4 at a concrete artifact and batch: a single-feature
artifact whose estimator echoes the feature value, applied to one record. -/
theorem predict_deterministic_witness :
    ([(3 : ℚ)] :
        List ℚ) = ([[("x", (3 : ℚ))]] : List InputRecord).map
          (fun r => (Artifact.mk ["x"] (fun v => v.headD 0)).estimator
            (recordVector (Artifact.mk ["x"] (fun v => v.headD 0)) r)) ∧
    ([(3 : ℚ)] : List ℚ).length = ([[("x", (3 : ℚ))]] : List InputRecord).length :=
  (predict_deterministic (Artifact.mk ["x"] (fun v => v.headD 0))
    [[("x", (3 : ℚ))]]).2 [(3 : ℚ)] (by rfl)

/-- A record fails the schema check exactly when a required feature key is
missing or an extra key is supplied. -/
theorem schemaMatches_eq_false_iff (a : Artifact) (r : InputRecord) :
    schemaMatches a r = false ↔
      (∃ c ∈ a.feature_columns, c ∉ recordKeys r) ∨
        (∃ k ∈ recordKeys r, k ∉ a.feature_columns) := by
  rw [← Bool.not_eq_true]
  simp only [schemaMatches, Bool.and_eq_true, List.all_eq_true, decide_eq_true_eq]
  push_neg
  constructor
  · intro h
    by_cases hl : ∀ c ∈ a.feature_columns, c ∈ recordKeys r
    · rcases (h hl) with ⟨k, hk1, hk2⟩
      exact Or.inr ⟨k, hk1, hk2⟩
    · push_neg at hl
      rcases hl with ⟨c, hc1, hc2⟩
      exact Or.inl ⟨c, hc1, hc2⟩
  · rintro (⟨c, hc1, hc2⟩ | ⟨k, hk1, hk2⟩) h
    · exact absurd (h c hc1) hc2
    · exact ⟨k, hk1, hk2⟩

/-- Claim C5: predict fails with SchemaMismatch when some record is missing
a required feature key or supplies an extra one, fails with BatchTooLarge
when the batch exceeds the cap of 1000 records instead of silently
truncating, and returns no predictions in either failure case. -/
theorem predict_error_cases (a : Artifact) (rs : List InputRecord) :
    (rs.length > maxBatchSize → predict a rs = .error .BatchTooLarge) ∧
    (rs.length ≤ maxBatchSize →
      (∃ r ∈ rs, (∃ c ∈ a.feature_columns, c ∉ recordKeys r) ∨
          (∃ k ∈ recordKeys r, k ∉ a.feature_columns)) →
      predict a rs = .error .SchemaMismatch) ∧
    (∀ e ps, predict a rs = .error e → predict a rs ≠ .ok ps) := by
  refine ⟨?_, ?_, ?_⟩
  · intro h
    unfold predict
    rw [if_pos h]
  · intro hle hex
    have hall : rs.all (fun r => schemaMatches a r) = false := by
      obtain ⟨r, hr, hbad⟩ := hex
      have hfalse : schemaMatches a r = false :=
        (schemaMatches_eq_false_iff a r).mpr hbad
      rw [← Bool.not_eq_true]
      simp only [List.all_eq_true]
      intro hcontra
      rw [hcontra r hr] at hfalse
      exact Bool.noConfusion hfalse
    unfold predict
    rw [if_neg (by omega)]
    simp [hall]
  · intro e ps he hok
    rw [he] at hok
    exact Except.noConfusion hok

/-- Witness for claim C5: a batch of 1001 empty records is rejected with
BatchTooLarge, and a single record supplying key y instead of the required
feature x is rejected with SchemaMismatch. -/
theorem predict_error_cases_witness :
    predict (Artifact.mk ["x"] (fun v => v.headD 0))
        (List.replicate 1001 ([] : InputRecord)) = .error .BatchTooLarge ∧
    predict (Artifact.mk ["x"] (fun v => v.headD 0))
        [[("y", (1 : ℚ))]] = .error .SchemaMismatch :=
  ⟨(predict_error_cases (Artifact.mk ["x"] (fun v => v.headD 0))
      (List.replicate 1001 ([] : InputRecord))).1
        (by rw [List.length_replicate]; norm_num [maxBatchSize]),
   (predict_error_cases (Artifact.mk ["x"] (fun v => v.headD 0))
      [[("y", (1 : ℚ))]]).2.1 (by norm_num [maxBatchSize]) (by decide)⟩

/-- Modelled from the spec: the artifact path the Model Registry computes,
a pure function of model id, algorithm name and version, represented by
its components; the rendered form given in the external-interfaces section
is storage_root/model_id/algorithm_vversion.ext. -/
structure ArtifactPath where
  model_id : Nat
  algorithm : String
  version : Nat
  deriving DecidableEq

/-- Modelled from the spec: the Model Registry operation
save(model_id, algorithm, artifact) of the backend (not under src/).  The
registry state is the per-model-id version counter; save increments the
counter scoped to the model id and derives the path from the model id, the
algorithm name and the new version. -/
def save (reg : Nat → Nat) (model_id : Nat) (algorithm : String) :
    (Nat → Nat) × ArtifactPath :=
  let v := reg model_id + 1
  (fun m => if m = model_id then v else reg m, ⟨model_id, algorithm, v⟩)

/-- The paths produced by a sequence of save requests, threading the
version-counter state through the saves in order. -/
def runSaves (reg : Nat → Nat) : List (Nat × String) → List ArtifactPath
  | [] => []
  | (m, alg) :: rest => (save reg m alg).2 :: runSaves (save reg m alg).1 rest

/-- Every path produced by a save sequence carries a version strictly
above the version counter the sequence started from. -/
theorem runSaves_version_gt (seq : List (Nat × String)) :
    ∀ reg : Nat → Nat, ∀ p ∈ runSaves reg seq, reg p.model_id < p.version := by
  induction seq with
  | nil =>
      intro reg p hp
      simp [runSaves] at hp
  | cons head rest ih =>
      intro reg p hp
      obtain ⟨m, alg⟩ := head
      simp only [runSaves, List.mem_cons] at hp
      rcases hp with hp | hp
      · subst hp
        simp [save]
      · have h := ih (save reg m alg).1 p hp
        have hmono : reg p.model_id ≤ (save reg m alg).1 p.model_id := by
          simp only [save]
          split
          · rename_i heq
            rw [heq]
            omega
          · exact le_refl _
        omega

/-- Each save request determines the model id and algorithm components of
its path. -/
theorem runSaves_components (seq : List (Nat × String)) :
    ∀ reg : Nat → Nat,
      (runSaves reg seq).map (fun p => (p.model_id, p.algorithm)) = seq := by
  induction seq with
  | nil => intro reg; simp [runSaves]
  | cons head rest ih =>
      intro reg
      obtain ⟨m, alg⟩ := head
      simp [runSaves, save, ih]

/-- Claim C2: the Model Registry save computes the artifact path as a pure
function of the model id, the algorithm name and a version counter scoped
to that model id; across any sequence of saves the versions of saves on
the same model strictly increase in sequence order, and no two saves in
the sequence ever produce the same path, so no save overwrites a path
produced by an earlier save. -/
theorem registry_never_overwrites (reg : Nat → Nat) (seq : List (Nat × String)) :
    (runSaves reg seq).map (fun p => (p.model_id, p.algorithm)) = seq ∧
    (runSaves reg seq).Pairwise
      (fun p q => (p.model_id = q.model_id → p.version < q.version) ∧ p ≠ q) := by
  refine ⟨runSaves_components seq reg, ?_⟩
  induction seq generalizing reg with
  | nil => simp [runSaves]
  | cons head rest ih =>
      obtain ⟨m, alg⟩ := head
      simp only [runSaves, List.pairwise_cons]
      constructor
      · intro q hq
        have hgt := runSaves_version_gt rest (save reg m alg).1 q hq
        by_cases hmodel : q.model_id = m
        · rw [hmodel] at hgt
          have hv : (save reg m alg).1 m = reg m + 1 := by simp [save]
          rw [hv] at hgt
          constructor
          · intro _
            simpa [save] using hgt
          · intro hcontra
            have : ((save reg m alg).2).version = q.version := by rw [hcontra]
            simp only [save] at this
            omega
        · constructor
          · intro heq
            simp only [save] at heq
            exact absurd heq.symm hmodel
          · intro hcontra
            have : ((save reg m alg).2).model_id = q.model_id := by rw [hcontra]
            simp only [save] at this
            exact hmodel this.symm
      · exact ih (save reg m alg).1

/-- Per-candidate metric set, from the TrainingMetrics interface in
frontend/lib/api-client.ts (one interface holding the classification and
the regression metrics), plus the training time the spec uses as the final
classification tie-break. -/
structure TrainingMetrics where
  accuracy : ℚ
  f1_score : ℚ
  precision : ℚ
  recall_score : ℚ
  MSE : ℚ
  MAE : ℚ
  R2 : ℚ
  train_time : ℚ
  deriving DecidableEq

/-- Per-candidate training result, from the TrainingResult interface in
frontend/lib/api-client.ts: algorithm name, metric set (none when the fit
of this candidate raised, per the spec partial-failure policy) and the
persisted artifact path for fitted candidates. -/
structure TrainingResult where
  algorithm : String
  metrics : Option TrainingMetrics
  model_path : Option ArtifactPath
  deriving DecidableEq

/-- Modelled from the spec: the ranking key of a candidate, lexicographic.
Classification ranks by F1, tie-break accuracy, then shortest training
time; regression ranks by R2, tie-break lowest MSE. -/
def rankKey (t : MLTask) (m : TrainingMetrics) : Lex (ℚ × Lex (ℚ × ℚ)) :=
  match t with
  | .classification => toLex (m.f1_score, toLex (m.accuracy, -m.train_time))
  | .regression => toLex (m.R2, toLex (-m.MSE, 0))

/-- Candidate a ranks at least as high as candidate b, written out the way
the spec words the ranking: classification compares F1, then accuracy,
then training time; regression compares R2, then MSE. -/
def ranksGe (t : MLTask) (a b : TrainingMetrics) : Prop :=
  match t with
  | .classification =>
      b.f1_score < a.f1_score ∨ (a.f1_score = b.f1_score ∧
        (b.accuracy < a.accuracy ∨
          (a.accuracy = b.accuracy ∧ a.train_time ≤ b.train_time)))
  | .regression =>
      b.R2 < a.R2 ∨ (a.R2 = b.R2 ∧ a.MSE ≤ b.MSE)

/-- The spelled-out ranking agrees with the lexicographic key order. -/
theorem ranksGe_iff_key_le (t : MLTask) (a b : TrainingMetrics) :
    ranksGe t a b ↔ rankKey t b ≤ rankKey t a := by
  cases t
  case classification =>
    simp only [ranksGe, rankKey, Prod.Lex.le_iff]
    constructor
    · rintro (h | ⟨h1, h2 | ⟨h2, h3⟩⟩)
      · exact Or.inl h
      · exact Or.inr ⟨h1.symm, Or.inl h2⟩
      · exact Or.inr ⟨h1.symm, Or.inr ⟨h2.symm, by linarith⟩⟩
    · rintro (h | ⟨h1, h2 | ⟨h2, h3⟩⟩)
      · exact Or.inl h
      · exact Or.inr ⟨h1.symm, Or.inl h2⟩
      · exact Or.inr ⟨h1.symm, Or.inr ⟨h2.symm, by linarith⟩⟩
  case regression =>
    simp only [ranksGe, rankKey, Prod.Lex.le_iff]
    constructor
    · rintro (h | ⟨h1, h2⟩)
      · exact Or.inl h
      · rcases lt_or_eq_of_le h2 with h2 | h2
        · exact Or.inr ⟨h1.symm, Or.inl (by linarith)⟩
        · exact Or.inr ⟨h1.symm, Or.inr ⟨by rw [h2], le_refl 0⟩⟩
    · rintro (h | ⟨h1, h2 | ⟨h2, h3⟩⟩)
      · exact Or.inl h
      · exact Or.inr ⟨h1.symm, by linarith⟩
      · exact Or.inr ⟨h1.symm, by linarith [neg_inj.mp h2]⟩

/-- Modelled from the spec: one step of best-candidate selection.  A
candidate with no metric set never becomes the best; a strictly
higher-ranking fitted candidate replaces the current best. -/
def pickBetter (t : MLTask) (best : Option TrainingResult) (c : TrainingResult) :
    Option TrainingResult :=
  match c.metrics with
  | none => best
  | some m =>
      match best with
      | none => some c
      | some b =>
          match b.metrics with
          | none => some c
          | some bm => if rankKey t bm < rankKey t m then some c else best

/-- Modelled from the spec: select the best candidate of a result list by
the task-appropriate ranking, considering only successfully fitted
candidates. -/
def selectBest (t : MLTask) (rs : List TrainingResult) : Option TrainingResult :=
  rs.foldl (pickBetter t) none

/-- Folding the selection step preserves domination: once the accumulator
holds a fitted candidate ranking at least x, the final result does too. -/
theorem foldl_pickBetter_dominates (t : MLTask) (rs : List TrainingResult) :
    ∀ b bm x, b.metrics = some bm → rankKey t x ≤ rankKey t bm →
      ∃ b2 bm2, rs.foldl (pickBetter t) (some b) = some b2 ∧
        b2.metrics = some bm2 ∧ rankKey t x ≤ rankKey t bm2 := by
  induction rs with
  | nil =>
      intro b bm x h2 h3
      exact ⟨b, bm, rfl, h2, h3⟩
  | cons c rest ih =>
      intro b bm x h2 h3
      rw [List.foldl_cons]
      cases hc : c.metrics with
      | none =>
          have hpb : pickBetter t (some b) c = some b := by simp [pickBetter, hc]
          rw [hpb]
          exact ih b bm x h2 h3
      | some m =>
          by_cases hlt : rankKey t bm < rankKey t m
          · have hpb : pickBetter t (some b) c = some c := by
              simp [pickBetter, hc, h2, hlt]
            rw [hpb]
            exact ih c m x hc (h3.trans hlt.le)
          · have hpb : pickBetter t (some b) c = some b := by
              simp [pickBetter, hc, h2, hlt]
            rw [hpb]
            exact ih b bm x h2 h3

/-- Every fitted candidate in the list is ranked at most as high as the
selected result of the fold. -/
theorem foldl_pickBetter_covers (t : MLTask) (rs : List TrainingResult) :
    ∀ acc c, c ∈ rs → ∀ m, c.metrics = some m →
      ∃ b bm, rs.foldl (pickBetter t) acc = some b ∧ b.metrics = some bm ∧
        rankKey t m ≤ rankKey t bm := by
  induction rs with
  | nil =>
      intro acc c hc
      simp at hc
  | cons d rest ih =>
      intro acc c hc m hm
      rw [List.foldl_cons]
      rcases List.mem_cons.mp hc with rfl | hmem
      · have hstep : ∃ b0 bm0, pickBetter t acc c = some b0 ∧
            b0.metrics = some bm0 ∧ rankKey t m ≤ rankKey t bm0 := by
          cases acc with
          | none => exact ⟨c, m, by simp [pickBetter, hm], hm, le_refl _⟩
          | some b =>
              cases hbm : b.metrics with
              | none => exact ⟨c, m, by simp [pickBetter, hm, hbm], hm, le_refl _⟩
              | some bm =>
                  by_cases hlt : rankKey t bm < rankKey t m
                  · exact ⟨c, m, by simp [pickBetter, hm, hbm, hlt], hm, le_refl _⟩
                  · exact ⟨b, bm, by simp [pickBetter, hm, hbm, hlt], hbm, not_lt.mp hlt⟩
        obtain ⟨b0, bm0, h0, hbm0, hle0⟩ := hstep
        rw [h0]
        exact foldl_pickBetter_dominates t rest b0 bm0 m hbm0 hle0
      · exact ih (pickBetter t acc d) c hmem m hm

/-- The fold only ever returns the initial accumulator or a list member. -/
theorem foldl_pickBetter_mem (t : MLTask) (rs : List TrainingResult) :
    ∀ acc b, rs.foldl (pickBetter t) acc = some b → acc = some b ∨ b ∈ rs := by
  induction rs with
  | nil =>
      intro acc b h
      exact Or.inl h
  | cons c rest ih =>
      intro acc b h
      rw [List.foldl_cons] at h
      rcases ih (pickBetter t acc c) b h with hacc | hmem
      · cases hc : c.metrics with
        | none =>
            left
            rw [← hacc]
            simp [pickBetter, hc]
        | some m =>
            cases acc with
            | none =>
                right
                have : pickBetter t none c = some c := by simp [pickBetter, hc]
                rw [this] at hacc
                cases hacc
                exact List.mem_cons_self _ _
            | some a =>
                cases ham : a.metrics with
                | none =>
                    right
                    have : pickBetter t (some a) c = some c := by
                      simp [pickBetter, hc, ham]
                    rw [this] at hacc
                    cases hacc
                    exact List.mem_cons_self _ _
                | some am =>
                    by_cases hlt : rankKey t am < rankKey t m
                    · right
                      have : pickBetter t (some a) c = some c := by
                        simp [pickBetter, hc, ham, hlt]
                      rw [this] at hacc
                      cases hacc
                      exact List.mem_cons_self _ _
                    · left
                      have : pickBetter t (some a) c = some a := by
                        simp [pickBetter, hc, ham, hlt]
                      rw [this] at hacc
                      exact hacc
      · exact Or.inr (List.mem_cons_of_mem _ hmem)

/-- Modelled from the spec: the in-memory tabular Dataset at the
granularity the training contract inspects: its column names and its row
count.  Cell values are consumed only by the abstracted candidate
fitting. -/
structure Dataset where
  columns : List String
  n_rows : Nat

/-- Minimum row count the spec requires for a train/test split. -/
def minTrainRows : Nat := 10

/-- Modelled from the spec: the fixed roster of candidate algorithms per
task, from the design of the Training Engine and the Supported Algorithms
table of the README. -/
def roster : MLTask → List String
  | .classification => ["LogisticRegression", "RandomForest", "SVC", "GradientBoosting"]
  | .regression => ["LinearRegression", "Ridge", "Lasso", "RandomForest", "GradientBoosting"]

/-- Modelled from the spec: the validation constraints of the train
contract: feature columns non-empty, target column not among the feature
columns, feature columns a subset of the dataset columns, and at least the
minimum row count. -/
def validColumns (ds : Dataset) (target_column : String)
    (feature_columns : List String) : Bool :=
  decide (feature_columns ≠ []) && decide (target_column ∉ feature_columns) &&
    feature_columns.all (fun c => decide (c ∈ ds.columns)) &&
    decide (minTrainRows ≤ ds.n_rows)

/-- Training failure modes from the spec error taxonomy; ValidationFailed
stands for the descriptive dataset/validation errors that surface to the
caller immediately. -/
inductive TrainError where
  | MalformedDataset
  | InsufficientClassSamples
  | AllCandidatesFailed
  | ValidationFailed
  deriving DecidableEq

/-- The per-algorithm fit outcomes of a run: the abstracted candidate
fitting applied to each roster algorithm, none when that fit raised. -/
def fitOutcomes (fitter : String → Option TrainingMetrics) (t : MLTask) :
    List (String × Option TrainingMetrics) :=
  (roster t).map (fun alg => (alg, fitter alg))

/-- Modelled from the spec: persist every successfully fitted candidate
through the Model Registry, threading the version-counter state; failed
candidates are kept in the result list with no metric set and no path. -/
def persistCandidates (model_id : Nat) :
    (Nat → Nat) → List (String × Option TrainingMetrics) →
      (Nat → Nat) × List TrainingResult
  | reg, [] => (reg, [])
  | reg, (alg, none) :: rest =>
      let r := persistCandidates model_id reg rest
      (r.1, ⟨alg, none, none⟩ :: r.2)
  | reg, (alg, some m) :: rest =>
      let r := persistCandidates model_id (save reg model_id alg).1 rest
      (r.1, ⟨alg, some m, some (save reg model_id alg).2⟩ :: r.2)

/-- The persisted result list carries exactly the algorithms and metric
sets of the fit outcomes, in order. -/
theorem persistCandidates_pairs (model_id : Nat)
    (os : List (String × Option TrainingMetrics)) :
    ∀ reg, ((persistCandidates model_id reg os).2.map
      (fun r => (r.algorithm, r.metrics))) = os := by
  induction os with
  | nil => intro reg; simp [persistCandidates]
  | cons o rest ih =>
      intro reg
      obtain ⟨alg, mo⟩ := o
      cases mo with
      | none => simp [persistCandidates, ih]
      | some m => simp [persistCandidates, ih]

/-- A failed fit outcome appears in the persisted result list with a null
metric set and no artifact path. -/
theorem persistCandidates_failed_mem (model_id : Nat)
    (os : List (String × Option TrainingMetrics)) :
    ∀ reg alg, (alg, (none : Option TrainingMetrics)) ∈ os →
      (⟨alg, none, none⟩ : TrainingResult) ∈ (persistCandidates model_id reg os).2 := by
  induction os with
  | nil =>
      intro reg alg h
      simp at h
  | cons o rest ih =>
      intro reg alg h
      obtain ⟨alg2, mo⟩ := o
      rcases List.mem_cons.mp h with heq | hmem
      · cases heq
        simp [persistCandidates]
      · cases mo with
        | none =>
            simp only [persistCandidates, List.mem_cons]
            exact Or.inr (ih reg alg hmem)
        | some m =>
            simp only [persistCandidates, List.mem_cons]
            exact Or.inr (ih (save reg model_id alg2).1 alg hmem)

/-- Modelled from the spec: the short justification string naming the
metric that won. -/
def justify (t : MLTask) (alg : String) : String :=
  match t with
  | .classification => alg ++ " achieved the highest F1 score"
  | .regression => alg ++ " achieved the highest R2 score"

/-- One invocation result of the Training Engine, from the
TrainingResponse interface in frontend/lib/api-client.ts: the list of
per-algorithm results, the selected best candidate, and the justification
text. -/
structure TrainingRun where
  all_results : List TrainingResult
  best : TrainingResult
  justification : String

/-- Modelled from the spec: the Training Engine contract
train(dataset, task, target_column, feature_columns) of the backend
(routers/training.py and the ml/ package, not under src/; the frontend
caller is trainModel in api-client.ts).  The numeric fitting of each
roster algorithm on the preprocessed deterministic 80/20 split is
abstracted as the fitter argument, giving per-algorithm metric sets or
none when a fit raises.  The function validates the request, fits the
roster, fails with AllCandidatesFailed when every candidate raised,
otherwise persists every fitted candidate through the registry and selects
the best candidate by the task-appropriate ranking; the registry
version-counter state is threaded and returned unchanged on failure. -/
def train (fitter : String → Option TrainingMetrics) (ds : Dataset)
    (model_id : Nat) (t : MLTask) (target_column : String)
    (feature_columns : List String) (reg : Nat → Nat) :
    Except TrainError TrainingRun × (Nat → Nat) :=
  if validColumns ds target_column feature_columns then
    if (fitOutcomes fitter t).all (fun o => o.2.isNone) then
      (.error .AllCandidatesFailed, reg)
    else
      match selectBest t (persistCandidates model_id reg (fitOutcomes fitter t)).2 with
      | some b =>
          (.ok ⟨(persistCandidates model_id reg (fitOutcomes fitter t)).2, b,
              justify t b.algorithm⟩,
            (persistCandidates model_id reg (fitOutcomes fitter t)).1)
      | none => (.error .AllCandidatesFailed, reg)
  else (.error .ValidationFailed, reg)

/-- When the request validates and at least one candidate fits, train
succeeds, returning the persisted result list, a selected best candidate
that is itself a fitted member of that list, and the threaded registry
state. -/
theorem train_ok_of_some_fit (fitter : String → Option TrainingMetrics)
    (ds : Dataset) (model_id : Nat) (t : MLTask) (target_column : String)
    (feature_columns : List String) (reg : Nat → Nat)
    (hvalid : validColumns ds target_column feature_columns = true)
    (hfit : ∃ alg ∈ roster t, (fitter alg).isSome) :
    ∃ b, selectBest t (persistCandidates model_id reg (fitOutcomes fitter t)).2 = some b ∧
      train fitter ds model_id t target_column feature_columns reg =
        (.ok ⟨(persistCandidates model_id reg (fitOutcomes fitter t)).2, b,
            justify t b.algorithm⟩,
          (persistCandidates model_id reg (fitOutcomes fitter t)).1) ∧
      b.metrics.isSome ∧
      b ∈ (persistCandidates model_id reg (fitOutcomes fitter t)).2 := by
  obtain ⟨alg0, halg0, hsome0⟩ := hfit
  obtain ⟨m0, hm0⟩ := Option.isSome_iff_exists.mp hsome0
  have hnotall : (fitOutcomes fitter t).all (fun o => o.2.isNone) = false := by
    rw [← Bool.not_eq_true]
    simp only [List.all_eq_true]
    intro hcontra
    have hmem : (alg0, fitter alg0) ∈ fitOutcomes fitter t :=
      List.mem_map_of_mem _ halg0
    have hno := hcontra _ hmem
    rw [hm0] at hno
    simp at hno
  have hmem0 : (alg0, some m0) ∈ fitOutcomes fitter t := by
    rw [← hm0]
    exact List.mem_map_of_mem _ halg0
  have hcmem : ∃ c ∈ (persistCandidates model_id reg (fitOutcomes fitter t)).2,
      c.metrics = some m0 := by
    rw [← persistCandidates_pairs model_id (fitOutcomes fitter t) reg] at hmem0
    obtain ⟨c, hc, hceq⟩ := List.mem_map.mp hmem0
    exact ⟨c, hc, congrArg Prod.snd hceq⟩
  obtain ⟨c0, hc0mem, hc0met⟩ := hcmem
  obtain ⟨b, bm, hsel, hbmet, _⟩ :=
    foldl_pickBetter_covers t (persistCandidates model_id reg (fitOutcomes fitter t)).2
      none c0 hc0mem m0 hc0met
  have hselb : selectBest t (persistCandidates model_id reg (fitOutcomes fitter t)).2 =
      some b := hsel
  refine ⟨b, hselb, ?_, ?_, ?_⟩
  · unfold train
    rw [if_pos hvalid, if_neg (by simp [hnotall]), hselb]
  · rw [hbmet]
    rfl
  · rcases foldl_pickBetter_mem t
      (persistCandidates model_id reg (fitOutcomes fitter t)).2 none b hselb with hno | hin
    · exact Option.noConfusion hno
    · exact hin

/-- Claim C1: for every valid training request with at least one candidate
that fits, train returns a run whose selected best candidate is a fitted
member of the result list and ranks at least as high as every successfully
fitted candidate: maximum F1 with ties broken by accuracy then shortest
training time for classification, maximum R2 with ties broken by lowest
MSE for regression. -/
theorem train_selects_best_candidate (fitter : String → Option TrainingMetrics)
    (ds : Dataset) (model_id : Nat) (t : MLTask) (target_column : String)
    (feature_columns : List String) (reg : Nat → Nat)
    (hvalid : validColumns ds target_column feature_columns = true)
    (hfit : ∃ alg ∈ roster t, (fitter alg).isSome) :
    ∃ run reg2,
      train fitter ds model_id t target_column feature_columns reg = (.ok run, reg2) ∧
      ∃ bm, run.best.metrics = some bm ∧ run.best ∈ run.all_results ∧
        ∀ c ∈ run.all_results, ∀ m, c.metrics = some m → ranksGe t bm m := by
  obtain ⟨b, hselb, htrain, hbsome, hbmem⟩ :=
    train_ok_of_some_fit fitter ds model_id t target_column feature_columns reg hvalid hfit
  obtain ⟨bm, hbm⟩ := Option.isSome_iff_exists.mp hbsome
  refine ⟨_, _, htrain, bm, hbm, hbmem, ?_⟩
  intro c hc m hm
  obtain ⟨b2, bm2, hsel2, hbmet2, hle2⟩ :=
    foldl_pickBetter_covers t (persistCandidates model_id reg (fitOutcomes fitter t)).2
      none c hc m hm
  have hb2 : b = b2 := Option.some.inj (hselb.symm.trans hsel2)
  rw [← hb2] at hbmet2
  have hbm2 : bm = bm2 := Option.some.inj (hbm.symm.trans hbmet2)
  rw [← hbm2] at hle2
  exact (ranksGe_iff_key_le t bm m).mpr hle2

/-- A concrete 150-row two-column dataset used by the training witnesses. -/
def irisDs : Dataset := ⟨["sepal_length", "species"], 150⟩

/-- A concrete fitter for the training witnesses: only RandomForest fits. -/
def rfOnlyFit : String → Option TrainingMetrics :=
  fun alg => if alg = "RandomForest" then
    some ⟨9/10, 9/10, 9/10, 9/10, 0, 0, 0, 1⟩ else none

/-- Witness for claim C1: a classification request over a 150-row dataset
where only RandomForest fits; train succeeds and the selected candidate
dominates the fitted candidates. -/
theorem train_selects_best_candidate_witness :
    ∃ run reg2,
      train rfOnlyFit irisDs 1 .classification "species" ["sepal_length"]
        (fun _ => 0) = (.ok run, reg2) ∧
      ∃ bm, run.best.metrics = some bm ∧ run.best ∈ run.all_results ∧
        ∀ c ∈ run.all_results, ∀ m, c.metrics = some m →
          ranksGe .classification bm m :=
  train_selects_best_candidate rfOnlyFit irisDs 1 .classification "species"
    ["sepal_length"] (fun _ => 0) (by decide) (by decide)

/-- Claim C7: on a validated request, if every candidate fit raises the
run fails with AllCandidatesFailed and the registry state is unchanged (no
artifact persisted); if at least one candidate fits the run succeeds, each
failed candidate appears in the result list with a null metric set, and
the selected best candidate is itself a fitted candidate, so selection
considers only the successfully fitted ones. -/
theorem train_partial_failure_policy (fitter : String → Option TrainingMetrics)
    (ds : Dataset) (model_id : Nat) (t : MLTask) (target_column : String)
    (feature_columns : List String) (reg : Nat → Nat)
    (hvalid : validColumns ds target_column feature_columns = true) :
    ((∀ alg ∈ roster t, fitter alg = none) →
      train fitter ds model_id t target_column feature_columns reg =
        (.error .AllCandidatesFailed, reg)) ∧
    ((∃ alg ∈ roster t, (fitter alg).isSome) →
      ∃ run reg2,
        train fitter ds model_id t target_column feature_columns reg = (.ok run, reg2) ∧
        (∀ alg ∈ roster t, fitter alg = none →
          (⟨alg, none, none⟩ : TrainingResult) ∈ run.all_results) ∧
        run.best.metrics.isSome) := by
  constructor
  · intro hall
    have hcheck : (fitOutcomes fitter t).all (fun o => o.2.isNone) = true := by
      simp only [List.all_eq_true]
      intro o ho
      obtain ⟨alg, halg, rfl⟩ := List.mem_map.mp ho
      simp [hall alg halg]
    unfold train
    rw [if_pos hvalid, if_pos hcheck]
  · intro hfit
    obtain ⟨b, hselb, htrain, hbsome, hbmem⟩ :=
      train_ok_of_some_fit fitter ds model_id t target_column feature_columns reg hvalid hfit
    refine ⟨_, _, htrain, ?_, hbsome⟩
    intro alg halg hnone
    have hmem : (alg, (none : Option TrainingMetrics)) ∈ fitOutcomes fitter t := by
      rw [← hnone]
      exact List.mem_map_of_mem _ halg
    exact persistCandidates_failed_mem model_id (fitOutcomes fitter t) reg alg hmem

/-- Witness for claim C7: with a fitter that always raises the run fails
with AllCandidatesFailed and the counter state is returned unchanged; with
a fitter where only RandomForest fits the run succeeds, the three failed
candidates appear with null metric sets, and the best is fitted. -/
theorem train_partial_failure_policy_witness :
    train (fun _ => none) irisDs 1 .classification "species" ["sepal_length"]
        (fun _ => 0) = (.error .AllCandidatesFailed, (fun _ => 0)) ∧
    ∃ run reg2,
      train rfOnlyFit irisDs 1 .classification "species" ["sepal_length"]
        (fun _ => 0) = (.ok run, reg2) ∧
      (∀ alg ∈ roster .classification, rfOnlyFit alg = none →
        (⟨alg, none, none⟩ : TrainingResult) ∈ run.all_results) ∧
      run.best.metrics.isSome :=
  ⟨(train_partial_failure_policy (fun _ => none) irisDs 1 .classification
      "species" ["sepal_length"] (fun _ => 0) (by decide)).1 (fun _ _ => rfl),
   (train_partial_failure_policy rfOnlyFit irisDs 1 .classification "species"
      ["sepal_length"] (fun _ => 0) (by decide)).2 (by decide)⟩

/-- Claim C8: if the target column appears among the feature columns, or
the feature columns are empty or not a subset of the dataset columns, or
the dataset has fewer than the minimum 10 rows, train fails immediately
with the validation error and causes no state change: no run is returned
and the registry version-counter state is returned unchanged. -/
theorem train_validation_no_state_change (fitter : String → Option TrainingMetrics)
    (ds : Dataset) (model_id : Nat) (t : MLTask) (target_column : String)
    (feature_columns : List String) (reg : Nat → Nat)
    (h : target_column ∈ feature_columns ∨ feature_columns = [] ∨
      ¬ (∀ c ∈ feature_columns, c ∈ ds.columns) ∨ ds.n_rows < minTrainRows) :
    train fitter ds model_id t target_column feature_columns reg =
      (.error .ValidationFailed, reg) := by
  have hfalse : validColumns ds target_column feature_columns = false := by
    rw [← Bool.not_eq_true]
    intro hv
    simp only [validColumns, Bool.and_eq_true, List.all_eq_true, decide_eq_true_eq] at hv
    obtain ⟨⟨⟨hne, hnmem⟩, hsub⟩, hrows⟩ := hv
    rcases h with h | h | h | h
    · exact hnmem h
    · exact hne h
    · exact h (fun c hc => hsub c hc)
    · omega
  unfold train
  rw [if_neg (by simp [hfalse])]

/-- Witness for claim C8: a request whose target column is also a feature
column is rejected with the validation error and the registry state
returned unchanged. -/
theorem train_validation_no_state_change_witness :
    train (fun _ => none) ⟨["a", "b"], 100⟩ 1 .classification "a" ["a"]
        (fun _ => 0) = (.error .ValidationFailed, (fun _ => 0)) :=
  train_validation_no_state_change (fun _ => none) ⟨["a", "b"], 100⟩ 1
    .classification "a" ["a"] (fun _ => 0) (Or.inl (by decide))

/-- Modelled from the spec: dashboard-level aggregation across all APIs
(the stats/dashboard route of the backend, not under src/; the frontend
caller is getDashboardStats in api-client.ts).  It sums the per-API
request counts and response-time totals (each running average times its
count) and recomputes a global weighted average response time. -/
def dashboardAvg (apis : List APIMetrics) : ℚ :=
  if (((apis.map (fun a => a.total_requests)).sum : Nat) : ℚ) = 0 then 0
  else (apis.map (fun a => a.average_response_time * (a.total_requests : ℚ))).sum /
    (((apis.map (fun a => a.total_requests)).sum : Nat) : ℚ)

/-- The unweighted mean of the per-API average response times: the
aggregation the spec forbids for the dashboard. -/
def unweightedAvg (apis : List APIMetrics) : ℚ :=
  (apis.map (fun a => a.average_response_time)).sum / (apis.length : ℚ)

/-- The running average times the request count of a ledger aggregate
recovers the total response time of its samples. -/
theorem ledger_total_rt (es : List UsageEvent) :
    (recordAll initialMetrics es).average_response_time *
      (((recordAll initialMetrics es).total_requests : Nat) : ℚ) =
      (es.map (fun e => e.response_time_ms)).sum := by
  rw [recordAll_total]
  have h := recordAll_avg_mul initialMetrics es
  simpa [initialMetrics] using h

/-- Claim C6, counterexample to the stated universality: two APIs whose
request counts differ (one and three requests) but whose samples share the
value 4 have a dashboard weighted average that does equal the unweighted
mean of the per-API averages, so differing counts alone do not force the
two aggregations apart. -/
theorem dashboard_unweighted_counterexample :
    (recordAll initialMetrics [⟨true, 4, 0, 0⟩]).total_requests ≠
      (recordAll initialMetrics
        [⟨true, 4, 0, 0⟩, ⟨true, 4, 0, 0⟩, ⟨true, 4, 0, 0⟩]).total_requests ∧
    dashboardAvg [recordAll initialMetrics [⟨true, 4, 0, 0⟩],
        recordAll initialMetrics
          [⟨true, 4, 0, 0⟩, ⟨true, 4, 0, 0⟩, ⟨true, 4, 0, 0⟩]] =
      unweightedAvg [recordAll initialMetrics [⟨true, 4, 0, 0⟩],
        recordAll initialMetrics
          [⟨true, 4, 0, 0⟩, ⟨true, 4, 0, 0⟩, ⟨true, 4, 0, 0⟩]] := by
  constructor
  · simp [recordAll, record, initialMetrics, List.foldl]
  · norm_num [dashboardAvg, unweightedAvg, recordAll, record, initialMetrics,
      List.foldl]

/-- Claim C6 (amended): for APIs whose aggregates come from their own
event sequences, the dashboard average equals the weighted mean: the sum
of the per-API response-time totals divided by the sum of the per-API
request counts (the grand mean of all samples); and it can differ from the
unweighted mean of the per-API averages when the request counts differ,
though not in every such case. -/
theorem dashboard_weighted_mean (groups : List (List UsageEvent)) :
    dashboardAvg (groups.map (fun es => recordAll initialMetrics es)) =
      (groups.map (fun es => (es.map (fun e => e.response_time_ms)).sum)).sum /
        (((groups.map (fun es => es.length)).sum : Nat) : ℚ) ∧
    ∃ a b : APIMetrics, a.total_requests ≠ b.total_requests ∧
      dashboardAvg [a, b] ≠ unweightedAvg [a, b] := by
  constructor
  · have hcfun : ((fun a : APIMetrics => a.total_requests) ∘
        (fun es => recordAll initialMetrics es)) = fun es : List UsageEvent => es.length := by
      funext es
      simp [Function.comp, recordAll_total, initialMetrics]
    have hfun : ((fun a : APIMetrics => a.average_response_time * (a.total_requests : ℚ)) ∘
        (fun es => recordAll initialMetrics es)) =
        fun es : List UsageEvent => (es.map (fun e => e.response_time_ms)).sum := by
      funext es
      simp only [Function.comp]
      exact ledger_total_rt es
    unfold dashboardAvg
    simp only [List.map_map]
    rw [hcfun, hfun]
    by_cases hz : (((groups.map (fun es : List UsageEvent => es.length)).sum : Nat) : ℚ) = 0
    · rw [if_pos hz, hz, div_zero]
    · rw [if_neg hz]
  · refine ⟨⟨1, 1, 0, 0, 0, 10⟩, ⟨3, 3, 0, 0, 0, 20⟩, by norm_num,
      by norm_num [dashboardAvg, unweightedAvg]⟩

/-- JavaScript Math.round on a rational embedded exactly: round half
toward positive infinity, the floor of the value plus one half. -/
def mathRound (q : ℚ) : ℤ := ⌊q + 1/2⌋

/-- From APIMonitoringPage in src/unnamed/part_004: the success rate shown
on the monitoring page, Math.round of the success fraction times 100 when
any request was made, and 0 otherwise. -/
def successRate (m : APIMetrics) : ℤ :=
  if 0 < m.total_requests then
    mathRound ((m.successful_requests : ℚ) / (m.total_requests : ℚ) * 100)
  else 0

/-- Claim C10: the monitoring page success rate is Math.round of
100 times successful over total requests when total_requests is positive
and exactly 0 when total_requests is 0, so the computation never divides
by zero and yields an integer between 0 and 100 whenever
successful_requests is at most total_requests. -/
theorem monitoring_success_rate_safe (m : APIMetrics) :
    (m.total_requests = 0 → successRate m = 0) ∧
    (0 < m.total_requests →
      successRate m =
        mathRound (100 * (m.successful_requests : ℚ) / (m.total_requests : ℚ))) ∧
    (m.successful_requests ≤ m.total_requests →
      0 ≤ successRate m ∧ successRate m ≤ 100) := by
  refine ⟨?_, ?_, ?_⟩
  · intro h
    unfold successRate
    rw [if_neg (by omega)]
  · intro h
    unfold successRate
    rw [if_pos h]
    congr 1
    ring
  · intro hle
    unfold successRate
    by_cases h : 0 < m.total_requests
    · rw [if_pos h]
      have ht : (0 : ℚ) < (m.total_requests : ℚ) := by exact_mod_cast h
      have hs : (m.successful_requests : ℚ) ≤ (m.total_requests : ℚ) := by
        exact_mod_cast hle
      have hs0 : (0 : ℚ) ≤ (m.successful_requests : ℚ) := by positivity
      have hq0 : (0 : ℚ) ≤ (m.successful_requests : ℚ) / (m.total_requests : ℚ) * 100 := by
        positivity
      have hq100 : (m.successful_requests : ℚ) / (m.total_requests : ℚ) * 100 ≤ 100 := by
        rw [div_mul_eq_mul_div, div_le_iff ht]
        nlinarith
      constructor
      · unfold mathRound
        apply Int.le_floor.mpr
        push_cast
        linarith
      · unfold mathRound
        have hlt : ⌊(m.successful_requests : ℚ) / (m.total_requests : ℚ) * 100 + 1/2⌋ <
            101 := by
          apply Int.floor_lt.mpr
          push_cast
          linarith
        omega
    · rw [if_neg h]
      constructor <;> norm_num

/-- Witness for claim C10: with 3 successes out of 4 requests the rate is
within bounds, and with no requests it is 0. -/
theorem monitoring_success_rate_safe_witness :
    (0 ≤ successRate ⟨4, 3, 1, 0, 0, 0⟩ ∧ successRate ⟨4, 3, 1, 0, 0, 0⟩ ≤ 100) ∧
    successRate ⟨0, 0, 0, 0, 0, 0⟩ = 0 :=
  ⟨(monitoring_success_rate_safe ⟨4, 3, 1, 0, 0, 0⟩).2.2 (by decide),
   (monitoring_success_rate_safe ⟨0, 0, 0, 0, 0, 0⟩).1 rfl⟩
